import Mathlib

/-!
Verification development for `parse_logs.py`, an Apache common-log analyzer.

The Python source is shallowly embedded here:
* string helpers model the behaviour of Python `str.split`, the `in`
  substring test and `int()` on the relevant inputs;
* `fix_line_dict` (the line parser), `fetch` / `has_image` (the fetch
  classifier), the per-customer aggregation expressions and the
  busiest-window `while` loop of `main` are translated function by function;
* Python exceptions are modelled by `Except` / `Option` results, using the
  error taxonomy of the design document (`InvalidByteCountError`,
  `InvalidTimestampError`, `MalformedPathError`, `EmptyDatasetError`;
  `ValueError` / `IndexError` / `NameError` in CPython terms);
* `datetime` values are modelled as a count of seconds (the analytics only
  compare timestamps and add `timedelta(0, 300)`, which is addition here).
-/

namespace ParseLogs

/-! ## Python string primitives -/

/-- Characters that Python `str.split()` (no argument) treats as whitespace
within the character set that can occur in a regex-matched log field. -/
def pyIsSpace (c : Char) : Bool :=
  c == ' ' || c == '\t' || c == '\n' || c == '\r' || c == '\x0b' || c == '\x0c'

/-- Split a character list at every character satisfying `p`, keeping empty
groups, as Python `str.split(sep)` does for a one-character separator. -/
def splitBy (p : Char → Bool) : List Char → List (List Char)
  | [] => [[]]
  | x :: xs =>
    match splitBy p xs with
    | g :: gs => if p x then [] :: g :: gs else (x :: g) :: gs
    | [] => [[]]

/-- Python `s.split()` with no argument: split on whitespace runs and drop
all empty groups. -/
def pySplitWs (s : String) : List String :=
  ((splitBy pyIsSpace s.toList).filter (fun g => !g.isEmpty)).map (fun g => ⟨g⟩)

/-- Python `s.split("/")`: split on `/`, keeping empty groups. -/
def pySplitSlash (s : String) : List String :=
  (splitBy (fun c => c == '/') s.toList).map (fun g => ⟨g⟩)

/-- Python `s.split(":")`: split on `:`, keeping empty groups. -/
def pySplitColon (s : String) : List String :=
  (splitBy (fun c => c == ':') s.toList).map (fun g => ⟨g⟩)

/-- Whether `pat` occurs at the start of `l`. -/
def isPrefixOfL : List Char → List Char → Bool
  | [], _ => true
  | _ :: _, [] => false
  | a :: as, b :: bs => a == b && isPrefixOfL as bs

/-- Whether `pat` occurs somewhere inside `l`. -/
def isInfixOfL (pat : List Char) : List Char → Bool
  | [] => pat.isEmpty
  | b :: bs => isPrefixOfL pat (b :: bs) || isInfixOfL pat bs

/-- Python `needle in hay` for strings: substring containment. -/
def pyIn (needle hay : String) : Bool :=
  isInfixOfL needle.toList hay.toList

/-- Numeric value of a list of ASCII digits. -/
def digitsToNat (l : List Char) : Nat :=
  l.foldl (fun a c => a * 10 + (c.toNat - 48)) 0

/-- Python 2 `int(s)` on a string with no surrounding whitespace: an optional
sign followed by one or more ASCII digits, else a `ValueError` (`none`). -/
def pyInt? (s : String) : Option Int :=
  match s.toList with
  | '-' :: rest =>
    if rest ≠ [] ∧ rest.all Char.isDigit then some (-(digitsToNat rest : Int)) else none
  | '+' :: rest =>
    if rest ≠ [] ∧ rest.all Char.isDigit then some (digitsToNat rest : Int) else none
  | rest =>
    if rest ≠ [] ∧ rest.all Char.isDigit then some (digitsToNat rest : Int) else none

/-! ## Timestamp parsing (`datetime.strptime(s, "%d/%b/%Y:%H:%M:%S")`) -/

/-- Gregorian leap-year test used by `datetime`. -/
def isLeap (y : Nat) : Bool :=
  (y % 4 == 0 && y % 100 != 0) || y % 400 == 0

/-- Length of month `m` in year `y`. -/
def daysInMonth (y m : Nat) : Nat :=
  if m == 2 then (if isLeap y then 29 else 28)
  else if m == 4 || m == 6 || m == 9 || m == 11 then 30
  else 31

/-- Days contributed by the full months before month `m` of year `y`. -/
def daysBeforeMonth (y m : Nat) : Nat :=
  ((List.range (m - 1)).map (fun i => daysInMonth y (i + 1))).sum

/-- Days contributed by the full years before year `y` (arbitrary epoch). -/
def daysBeforeYear (y : Nat) : Nat :=
  365 * y + (y - 1) / 4 - (y - 1) / 100 + (y - 1) / 400

/-- Month number for a `%b` month abbreviation; `strptime` matches it
case-insensitively. -/
def monthNum (l : List Char) : Option Nat :=
  match l.map Char.toLower with
  | ['j', 'a', 'n'] => some 1
  | ['f', 'e', 'b'] => some 2
  | ['m', 'a', 'r'] => some 3
  | ['a', 'p', 'r'] => some 4
  | ['m', 'a', 'y'] => some 5
  | ['j', 'u', 'n'] => some 6
  | ['j', 'u', 'l'] => some 7
  | ['a', 'u', 'g'] => some 8
  | ['s', 'e', 'p'] => some 9
  | ['o', 'c', 't'] => some 10
  | ['n', 'o', 'v'] => some 11
  | ['d', 'e', 'c'] => some 12
  | _ => none

/-- Numeric `strptime` field: between `minLen` and `maxLen` digits with a
value in `[lo, hi]`. -/
def parseNumField (l : List Char) (minLen maxLen lo hi : Nat) : Option Nat :=
  if minLen ≤ l.length ∧ l.length ≤ maxLen ∧ l.all Char.isDigit ∧
      lo ≤ digitsToNat l ∧ digitsToNat l ≤ hi then
    some (digitsToNat l)
  else none

/-- Python `datetime.strptime(s, "%d/%b/%Y:%H:%M:%S")`, returned as a count
of seconds from an arbitrary epoch (`none` models the `ValueError` raised on
malformed text, including calendar-invalid dates and year 0). -/
def pyStrptime (s : String) : Option Nat :=
  match (splitBy (fun c => c == '/') s.toList) with
  | [dPart, monPart, rest] =>
    match (splitBy (fun c => c == ':') rest) with
    | [yPart, hPart, miPart, sPart] => do
      let d ← parseNumField dPart 1 2 1 31
      let mon ← monthNum monPart
      let y ← parseNumField yPart 4 4 1 9999
      let hh ← parseNumField hPart 1 2 0 23
      let mi ← parseNumField miPart 1 2 0 59
      let ss ← parseNumField sPart 1 2 0 59
      if d ≤ daysInMonth y mon then
        some ((((daysBeforeYear y + daysBeforeMonth y mon + (d - 1)) * 24 + hh) * 60 + mi) * 60 + ss)
      else none
    | _ => none
  | _ => none

/-! ## Data model -/

/-- A Python dict value that starts as a `str` and may be replaced by an
`int` (the `status` field: the regex yields a string, `fetch` overwrites it
with `int(...)`). -/
inductive PyStrInt where
  | s (v : String)
  | i (v : Int)
deriving DecidableEq

/-- The `groupdict()` of a line matched by `apache_common_format`: the nine
named capture groups, all strings. -/
structure LineDict where
  host : String
  identd : String
  user : String
  time : String
  request : String
  status : String
  bytes : String
  referer : String
  user_agent : String
deriving DecidableEq

/-- Field-conversion failures of `fix_line_dict`, named as in the design
document (CPython raises `ValueError` for the first two and `IndexError`
for the third). -/
inductive ParseError where
  | invalidByteCount
  | invalidTimestamp
  | malformedPath
deriving DecidableEq

/-- The cleaned-up record produced by `fix_line_dict`: `bytes` converted to
an integer, `time` to a timestamp, `user` / `user_agent` / `referer`
normalized (`-` becomes `None`, i.e. `none`), and `image_filename` /
`client_id` extracted from the request path.  `identd` is carried over
verbatim (the normalization loop does not include it), and `status` is
still the matched string until `fetch` overwrites it. -/
structure Record where
  host : String
  identd : Option String
  user : Option String
  time : Nat
  request : String
  status : PyStrInt
  bytes : Int
  referer : Option String
  user_agent : Option String
  image_filename : String
  client_id : String
deriving DecidableEq

/-- Lines 146-149 of the source: `-` means zero bytes, anything else goes
through `int()`. -/
def bytesField (s : String) : Except ParseError Int :=
  if s = "-" then .ok 0
  else
    match pyInt? s with
    | some n => .ok n
    | none => .error .invalidByteCount

/-- Lines 153-154 of the source: `time, zone = linedict["time"].split()`
(a `ValueError` unless exactly two tokens; the zone is discarded), then
`strptime` on the first token. -/
def timeField (s : String) : Except ParseError Nat :=
  match pySplitWs s with
  | [t, _zone] =>
    match pyStrptime t with
    | some v => .ok v
    | none => .error .invalidTimestamp
  | _ => .error .invalidTimestamp

/-- Lines 139-169 of the source (`fix_line_dict`): field conversions on a
structurally matched line, in source order — bytes, time, `-`-normalization
of `user` / `user_agent` / `referer` (not `identd`), then request-path
extraction (`request.split()[1]`, `.split("/")`, last segment and segment
index 2; missing tokens or segments raise `IndexError`, the design
document's `MalformedPathError`). -/
def fix_line_dict (d : LineDict) : Except ParseError Record :=
  match bytesField d.bytes with
  | .error e => .error e
  | .ok bytesVal =>
    match timeField d.time with
    | .error e => .error e
    | .ok timeVal =>
      match pySplitWs d.request with
      | _ :: image_path :: _ =>
        match pySplitSlash image_path with
        | seg0 :: seg1 :: client_id :: segs =>
          .ok { host := d.host, identd := some d.identd,
                user := if d.user = "-" then none else some d.user,
                time := timeVal, request := d.request, status := .s d.status,
                bytes := bytesVal,
                referer := if d.referer = "-" then none else some d.referer,
                user_agent := if d.user_agent = "-" then none else some d.user_agent,
                image_filename := (seg0 :: seg1 :: client_id :: segs).getLast (by simp),
                client_id := client_id }
        | _ => .error .malformedPath
      | _ => .error .malformedPath

/-! ## Fetch classifier -/

/-- Lines 100-105 of the source (`has_image`): one of the three extension
strings occurs somewhere in the request text (`'%s' % request` is the
request string itself). -/
def has_image (request : String) : Bool :=
  (["jpg", "png", "gif"]).any (fun ext => pyIn ext request)

/-- Python `int()` applied to a dict value that is a string or already an
integer. -/
def pyIntOf : PyStrInt → Option Int
  | .s v => pyInt? v
  | .i n => some n

/-- Lines 107-124 of the source (`fetch`): first executes
`hit["status"] = int(hit["status"])`, overwriting the field (a `none`
result models the `ValueError` when the conversion fails; it cannot for a
regex-matched status).  Returns the updated record together with the
boolean: 2xx status, `"GET" in request`, and `has_image(request)`. -/
def fetch (hit : Record) : Option (Record × Bool) :=
  match pyIntOf hit.status with
  | none => none
  | some n =>
    let hit := { hit with status := .i n }
    if n < 200 || 300 ≤ n then some (hit, false)
    else if !pyIn "GET" hit.request then some (hit, false)
    else if !has_image hit.request then some (hit, false)
    else some (hit, true)

/-! ## Customer aggregation (lines 204-213 of the source) -/

/-- Line 204: `customers = set(r["client_id"] for r in records)`; the set
of distinct customer ids, as a deduplicated list. -/
def customers (records : List Record) : List String :=
  (records.map (fun r => r.client_id)).dedup

/-- Lines 210-211: `len(list(Counter(requests).elements()))` — the counter
expands back to one element per record, so this is the number of the
customer's records. -/
def hits (records : List Record) (customer : String) : Nat :=
  ((records.filter (fun x => x.client_id == customer)).map (fun x => x.request)).length

/-- Line 213: `sum(x['bytes'] for x in records if x["client_id"] == customer)`. -/
def total_bytes (records : List Record) (customer : String) : Int :=
  ((records.filter (fun x => x.client_id == customer)).map (fun x => x.bytes)).sum

/-! ## Busiest-window finder (lines 229-253 of the source) -/

/-- Line 238: `sum(x["bytes"] for x in records if x["time"] <= time)`. -/
def cumulativeBytes (records : List Record) (t : Nat) : Int :=
  ((records.filter (fun x => decide (x.time ≤ t))).map (fun x => x.bytes)).sum

/-- Line 243: `len(Counter(z["request"] for z in records if z["time"] <= time))`
— the number of distinct request lines among records at or before `t`. -/
def cumulativeDistinctRequests (records : List Record) (t : Nat) : Nat :=
  (((records.filter (fun x => decide (x.time ≤ t))).map (fun x => x.request)).dedup).length

/-- The cursor values visited by the `while time <= maxtime` loop of lines
237-248 when started at `mintime`: `mintime + 300 * i`.  For
`mintime ≤ maxtime` (always true for a non-empty store) this list is
exactly the loop's iteration sequence. -/
def scanTimes (mintime maxtime : Nat) : List Nat :=
  (List.range ((maxtime - mintime) / 300 + 1)).map (fun i => mintime + 300 * i)

/-- The loop state of lines 230-248.  Python line 236 initializes the
(never again mentioned) names `bytestime` and `hitstime`; the names the
loop assigns and the prints read are `bytes_time` and `hits_time`, unbound
at loop entry — modelled as `Option` values starting at `none`. -/
structure ScanState where
  high_hits : Nat
  high_bytes : Int
  bytes_time : Option Nat
  hits_time : Option Nat
deriving DecidableEq

/-- Loop entry: `high_hits = 0`, `high_bytes = 0`, `bytes_time` and
`hits_time` unbound. -/
def initialScanState : ScanState :=
  { high_hits := 0, high_bytes := 0, bytes_time := none, hits_time := none }

/-- One iteration of the `while` loop (lines 238-246): strict `>` updates
of the bytes maximum and, independently, the distinct-hits maximum. -/
def scanStep (records : List Record) (s : ScanState) (t : Nat) : ScanState :=
  let bytes_test := cumulativeBytes records t
  let s1 := if bytes_test > s.high_bytes
    then { s with high_bytes := bytes_test, bytes_time := some t } else s
  let hits_test := cumulativeDistinctRequests records t
  if hits_test > s1.high_hits
    then { s1 with high_hits := hits_test, hits_time := some t } else s1

/-- The whole loop of lines 237-248. -/
def runScan (records : List Record) (mintime maxtime : Nat) : ScanState :=
  (scanTimes mintime maxtime).foldl (scanStep records) initialScanState

/-- Failures of the busiest-window computation: `min()` / `max()` of an
empty sequence raise `ValueError` (the design document's
`EmptyDatasetError`), and reading a never-assigned local raises
`NameError`. -/
inductive MainError where
  | emptyDataset
  | nameError (v : String)
deriving DecidableEq

/-- The busiest-window results read by the prints of lines 250-253. -/
structure BusiestWindowResult where
  hitsWindowStart : Nat
  maxHits : Nat
  bytesWindowStart : Nat
  maxBytes : Int
deriving DecidableEq

/-- Lines 229-253: take `mintime` / `maxtime` over the store's timestamps
(`ValueError` — `EmptyDatasetError` — on an empty store), run the loop,
then read `hits_time` (line 250) and `bytes_time` (line 252); reading a
name the loop never assigned raises `NameError`. -/
def findBusiestWindows (records : List Record) : Except MainError BusiestWindowResult :=
  match (records.map (fun r => r.time)).min?, (records.map (fun r => r.time)).max? with
  | some mintime, some maxtime =>
    let final := runScan records mintime maxtime
    match final.hits_time with
    | none => .error (.nameError "hits_time")
    | some ht =>
      match final.bytes_time with
      | none => .error (.nameError "bytes_time")
      | some bt =>
        .ok { hitsWindowStart := ht, maxHits := final.high_hits,
              bytesWindowStart := bt, maxBytes := final.high_bytes }
  | _, _ => .error .emptyDataset

/-! ## Helper lemmas: list sums over filters -/

/-- Splitting a mapped sum along a boolean predicate. -/
theorem sum_map_filter_split (l : List Record) (p : Record → Bool) (f : Record → Int) :
    ((l.filter p).map f).sum + ((l.filter (fun x => !p x)).map f).sum = (l.map f).sum := by
  induction l with
  | nil => simp
  | cons r rs ih =>
    by_cases hp : p r
    · simp only [List.filter_cons, hp, Bool.not_true, if_pos, if_neg, List.map_cons,
        List.sum_cons, Bool.false_eq_true, ite_false, ite_true]
      omega
    · simp only [List.filter_cons, Bool.not_eq_true] at *
      simp only [hp, Bool.not_false, ite_true, ite_false, List.map_cons, List.sum_cons,
        Bool.false_eq_true]
      omega

/-- Records of a different customer are untouched by filtering one customer
out. -/
theorem total_bytes_filter_ne (records : List Record) {c c' : String} (h : c' ≠ c) :
    total_bytes (records.filter (fun x => !(x.client_id == c))) c' = total_bytes records c' := by
  unfold total_bytes
  rw [List.filter_filter]
  have hfil : records.filter (fun a => a.client_id == c' && !(a.client_id == c))
      = records.filter (fun x => x.client_id == c') := by
    apply List.filter_congr
    intro x _
    by_cases hx : x.client_id = c'
    · simp [hx, h]
    · simp [hx]
  rw [hfil]

/-- Summing `total_bytes` over any duplicate-free cover of the client ids
recovers the total byte count. -/
theorem sum_total_bytes_partition (records : List Record) (cs : List String)
    (hnd : cs.Nodup) (hcov : ∀ r ∈ records, r.client_id ∈ cs) :
    (cs.map (fun c => total_bytes records c)).sum = (records.map (fun r => r.bytes)).sum := by
  induction cs generalizing records with
  | nil =>
    cases records with
    | nil => simp
    | cons r rs => exact absurd (hcov r (List.mem_cons_self r rs)) (List.not_mem_nil _)
  | cons c cs ih =>
    have hnd' := List.nodup_cons.mp hnd
    simp only [List.map_cons, List.sum_cons]
    have hmap : cs.map (fun c' => total_bytes records c')
        = cs.map (fun c' => total_bytes (records.filter (fun x => !(x.client_id == c))) c') := by
      apply List.map_congr_left
      intro c' hc'
      have hne : c' ≠ c := by
        intro hcc
        exact hnd'.1 (by rw [← hcc]; exact hc')
      exact (total_bytes_filter_ne records hne).symm
    rw [hmap, ih (records.filter (fun x => !(x.client_id == c))) hnd'.2 ?_]
    · unfold total_bytes
      exact sum_map_filter_split records (fun x => x.client_id == c) (fun x => x.bytes)
    · intro r hr
      have hm := List.mem_filter.mp hr
      have hcs := hcov r hm.1
      have hne : ¬ (r.client_id == c) = true := by simpa using hm.2
      rcases List.mem_cons.mp hcs with hc | hc
      · exact absurd (by simp [hc]) hne
      · exact hc

/-! ## Helper lemmas: the maximum trackers of the scan loop -/

/-- Proof device: one maximum tracker of the loop, acting on the pair of a
running maximum and the last time assigned to it (`none` = still unbound). -/
def track {α : Type} [LinearOrder α] (f : Nat → α) (p : α × Option Nat) (t : Nat) : α × Option Nat :=
  if f t > p.1 then (f t, some t) else p

theorem le_foldl_max {α : Type} [LinearOrder α] (l : List α) (a : α) : a ≤ l.foldl max a := by
  induction l generalizing a with
  | nil => exact le_refl a
  | cons x xs ih => exact le_trans (le_max_left a x) (ih (max a x))

theorem foldl_max_le {α : Type} [LinearOrder α] {l : List α} {a b : α}
    (ha : a ≤ b) (h : ∀ x ∈ l, x ≤ b) : l.foldl max a ≤ b := by
  induction l generalizing a with
  | nil => exact ha
  | cons x xs ih =>
    exact ih (max_le ha (h x (List.mem_cons_self x xs))) (fun y hy => h y (List.mem_cons_of_mem x hy))

theorem mem_le_foldl_max {α : Type} [LinearOrder α] {l : List α} {x : α} (a : α) (h : x ∈ l) :
    x ≤ l.foldl max a := by
  induction l generalizing a with
  | nil => cases h
  | cons y ys ih =>
    rcases List.mem_cons.mp h with rfl | h
    · exact le_trans (le_max_right a x) (le_foldl_max ys (max a x))
    · exact ih (max a y) h

theorem foldl_max_eq_init_or_mem {α : Type} [LinearOrder α] (l : List α) (a : α) :
    l.foldl max a = a ∨ l.foldl max a ∈ l := by
  induction l generalizing a with
  | nil => exact Or.inl rfl
  | cons x xs ih =>
    simp only [List.foldl_cons]
    rcases ih (max a x) with h | h
    · rcases max_choice a x with hm | hm
      · exact Or.inl (h.trans hm)
      · exact Or.inr (by rw [h, hm]; exact List.mem_cons_self x xs)
    · exact Or.inr (List.mem_cons_of_mem x h)

/-- What one strict-maximum tracker computes over a list of steps: the
running maximum of the sampled values, and — unless no step ever beat the
initial value, in which case the time name keeps its initial binding — the
first step at which that maximum is attained. -/
theorem foldl_track {α : Type} [LinearOrder α] (f : Nat → α) (ts : List Nat)
    (hi : α) (tm : Option Nat) :
    ts.foldl (track f) (hi, tm) =
      ((ts.map f).foldl max hi,
        if (ts.map f).foldl max hi ≤ hi then tm
        else ts.find? (fun t => decide (f t = (ts.map f).foldl max hi))) := by
  induction ts generalizing hi tm with
  | nil => simp
  | cons t ts ih =>
    simp only [List.foldl_cons, List.map_cons]
    by_cases hgt : hi < f t
    · have htr : track f (hi, tm) t = (f t, some t) := by
        simp [track, hgt]
      have hmax : max hi (f t) = f t := max_eq_right hgt.le
      rw [htr, ih (f t) (some t)]
      simp only [hmax]
      have hM : f t ≤ (ts.map f).foldl max (f t) := le_foldl_max _ _
      by_cases h1 : (ts.map f).foldl max (f t) ≤ f t
      · have hEq : (ts.map f).foldl max (f t) = f t := le_antisymm h1 hM
        rw [if_pos h1, if_neg (by rw [hEq]; exact not_le.mpr hgt),
          List.find?_cons_of_pos _ (by simp [hEq])]
      · rw [if_neg h1, if_neg (fun hc => h1 (le_trans hc hgt.le)),
          List.find?_cons_of_neg _ ?_]
        simp only [decide_eq_true_eq]
        intro hc
        exact h1 (le_of_eq hc.symm)
    · have htr : track f (hi, tm) t = (hi, tm) := by
        simp [track, hgt]
      have hmax : max hi (f t) = hi := max_eq_left (not_lt.mp hgt)
      rw [htr, ih hi tm]
      simp only [hmax]
      by_cases h2 : (ts.map f).foldl max hi ≤ hi
      · rw [if_pos h2, if_pos h2]
      · rw [if_neg h2, if_neg h2, List.find?_cons_of_neg _ ?_]
        simp only [decide_eq_true_eq]
        intro hc
        exact h2 ((le_of_eq hc.symm).trans (not_lt.mp hgt))

/-- The bytes components of the loop state evolve exactly as one strict
tracker of `cumulativeBytes` (the hits branch never writes them). -/
theorem scan_bytes_pair (records : List Record) (ts : List Nat) (s : ScanState) :
    ((ts.foldl (scanStep records) s).high_bytes, (ts.foldl (scanStep records) s).bytes_time) =
      ts.foldl (track (cumulativeBytes records)) (s.high_bytes, s.bytes_time) := by
  induction ts generalizing s with
  | nil => rfl
  | cons t ts ih =>
    simp only [List.foldl_cons]
    rw [ih]
    have hstep : ((scanStep records s t).high_bytes, (scanStep records s t).bytes_time)
        = track (cumulativeBytes records) (s.high_bytes, s.bytes_time) t := by
      by_cases h1 : cumulativeBytes records t > s.high_bytes <;>
        by_cases h2 : cumulativeDistinctRequests records t > s.high_hits <;>
        simp [scanStep, track, h1, h2]
    rw [hstep]

/-- The hits components of the loop state evolve exactly as one strict
tracker of `cumulativeDistinctRequests` (the bytes branch never writes
them). -/
theorem scan_hits_pair (records : List Record) (ts : List Nat) (s : ScanState) :
    ((ts.foldl (scanStep records) s).high_hits, (ts.foldl (scanStep records) s).hits_time) =
      ts.foldl (track (cumulativeDistinctRequests records)) (s.high_hits, s.hits_time) := by
  induction ts generalizing s with
  | nil => rfl
  | cons t ts ih =>
    simp only [List.foldl_cons]
    rw [ih]
    have hstep : ((scanStep records s t).high_hits, (scanStep records s t).hits_time)
        = track (cumulativeDistinctRequests records) (s.high_hits, s.hits_time) t := by
      by_cases h1 : cumulativeBytes records t > s.high_bytes <;>
        by_cases h2 : cumulativeDistinctRequests records t > s.high_hits <;>
        simp [scanStep, track, h1, h2]
    rw [hstep]

/-- Final value of `high_bytes`. -/
theorem runScan_high_bytes (records : List Record) (mintime maxtime : Nat) :
    (runScan records mintime maxtime).high_bytes =
      ((scanTimes mintime maxtime).map (cumulativeBytes records)).foldl max 0 := by
  have h := scan_bytes_pair records (scanTimes mintime maxtime) initialScanState
  rw [foldl_track] at h
  exact congrArg Prod.fst h

/-- Final value of `bytes_time`. -/
theorem runScan_bytes_time (records : List Record) (mintime maxtime : Nat) :
    (runScan records mintime maxtime).bytes_time =
      (if ((scanTimes mintime maxtime).map (cumulativeBytes records)).foldl max 0 ≤ 0 then none
       else (scanTimes mintime maxtime).find?
        (fun t => decide (cumulativeBytes records t =
          ((scanTimes mintime maxtime).map (cumulativeBytes records)).foldl max 0))) := by
  have h := scan_bytes_pair records (scanTimes mintime maxtime) initialScanState
  rw [foldl_track] at h
  exact congrArg Prod.snd h

/-- Final value of `high_hits`. -/
theorem runScan_high_hits (records : List Record) (mintime maxtime : Nat) :
    (runScan records mintime maxtime).high_hits =
      ((scanTimes mintime maxtime).map (cumulativeDistinctRequests records)).foldl max 0 := by
  have h := scan_hits_pair records (scanTimes mintime maxtime) initialScanState
  rw [foldl_track] at h
  exact congrArg Prod.fst h

/-- Final value of `hits_time`. -/
theorem runScan_hits_time (records : List Record) (mintime maxtime : Nat) :
    (runScan records mintime maxtime).hits_time =
      (if ((scanTimes mintime maxtime).map (cumulativeDistinctRequests records)).foldl max 0 ≤ 0
       then none
       else (scanTimes mintime maxtime).find?
        (fun t => decide (cumulativeDistinctRequests records t =
          ((scanTimes mintime maxtime).map (cumulativeDistinctRequests records)).foldl max 0))) := by
  have h := scan_hits_pair records (scanTimes mintime maxtime) initialScanState
  rw [foldl_track] at h
  exact congrArg Prod.snd h

/-! ## Helper lemmas: scan times and cumulative quantities -/

theorem mem_scanTimes {mintime maxtime t : Nat} (h : mintime ≤ maxtime) :
    t ∈ scanTimes mintime maxtime ↔ ((∃ k, t = mintime + 300 * k) ∧ t ≤ maxtime) := by
  simp only [scanTimes, List.mem_map, List.mem_range]
  constructor
  · rintro ⟨i, hi, rfl⟩
    refine ⟨⟨i, rfl⟩, ?_⟩
    have hi' : i ≤ (maxtime - mintime) / 300 := Nat.lt_succ_iff.mp hi
    have h1 : 300 * i ≤ 300 * ((maxtime - mintime) / 300) := Nat.mul_le_mul_left _ hi'
    have h2 : (maxtime - mintime) / 300 * 300 ≤ maxtime - mintime := Nat.div_mul_le_self _ _
    omega
  · rintro ⟨⟨k, rfl⟩, hle⟩
    refine ⟨k, ?_, rfl⟩
    have hk : k ≤ (maxtime - mintime) / 300 :=
      (Nat.le_div_iff_mul_le (by norm_num)).mpr (by omega)
    omega

theorem mintime_mem_scanTimes (mintime maxtime : Nat) :
    mintime ∈ scanTimes mintime maxtime := by
  simp only [scanTimes, List.mem_map, List.mem_range]
  exact ⟨0, Nat.succ_pos _, by omega⟩

theorem lastStep_mem_scanTimes (mintime maxtime : Nat) :
    mintime + 300 * ((maxtime - mintime) / 300) ∈ scanTimes mintime maxtime := by
  simp only [scanTimes, List.mem_map, List.mem_range]
  exact ⟨(maxtime - mintime) / 300, Nat.lt_succ_self _, rfl⟩

theorem scanTimes_le_lastStep {mintime maxtime t : Nat} (ht : t ∈ scanTimes mintime maxtime) :
    t ≤ mintime + 300 * ((maxtime - mintime) / 300) := by
  simp only [scanTimes, List.mem_map, List.mem_range] at ht
  obtain ⟨i, hi, rfl⟩ := ht
  have hi' : i ≤ (maxtime - mintime) / 300 := Nat.lt_succ_iff.mp hi
  omega

theorem cumulativeBytes_mono {records : List Record} (hnn : ∀ r ∈ records, 0 ≤ r.bytes)
    {t t' : Nat} (h : t ≤ t') :
    cumulativeBytes records t ≤ cumulativeBytes records t' := by
  unfold cumulativeBytes
  apply List.Sublist.sum_le_sum
  · apply List.Sublist.map
    apply List.monotone_filter_right
    intro a ha
    simp only [decide_eq_true_eq] at *
    omega
  · intro b hb
    obtain ⟨r, hr, rfl⟩ := List.mem_map.mp hb
    exact hnn r (List.mem_filter.mp hr).1

theorem cumulativeBytes_le_total {records : List Record} (hnn : ∀ r ∈ records, 0 ≤ r.bytes)
    (t : Nat) :
    cumulativeBytes records t ≤ (records.map (fun r => r.bytes)).sum := by
  unfold cumulativeBytes
  apply List.Sublist.sum_le_sum
  · exact List.Sublist.map _ (List.filter_sublist records)
  · intro b hb
    obtain ⟨r, hr, rfl⟩ := List.mem_map.mp hb
    exact hnn r hr

theorem cumulativeBytes_eq_zero {records : List Record} (hz : ∀ r ∈ records, r.bytes = 0)
    (t : Nat) : cumulativeBytes records t = 0 := by
  unfold cumulativeBytes
  apply List.sum_eq_zero
  intro b hb
  obtain ⟨r, hr, rfl⟩ := List.mem_map.mp hb
  exact hz r (List.mem_filter.mp hr).1

theorem one_le_cumulativeDistinct {records : List Record} {r : Record} (hr : r ∈ records)
    {t : Nat} (ht : r.time ≤ t) : 1 ≤ cumulativeDistinctRequests records t := by
  unfold cumulativeDistinctRequests
  have hmem : r.request ∈ ((records.filter (fun x => decide (x.time ≤ t))).map
      (fun x => x.request)).dedup := by
    rw [List.mem_dedup]
    exact List.mem_map.mpr ⟨r, List.mem_filter.mpr ⟨hr, by simpa using ht⟩, rfl⟩
  exact List.length_pos.mpr (List.ne_nil_of_mem hmem)

/-! ## Helper lemmas: minima, maxima and loop-state facts -/

theorem min_le_max_of_some {l : List Nat} {a b : Nat}
    (ha : l.min? = some a) (hb : l.max? = some b) : a ≤ b := by
  have h1 := List.min?_eq_some_iff'.mp ha
  have h2 := List.max?_eq_some_iff'.mp hb
  exact h1.2 b h2.1

theorem exists_record_at_min {records : List Record} {mintime : Nat}
    (hmin : (records.map (fun r => r.time)).min? = some mintime) :
    ∃ r ∈ records, r.time = mintime := by
  have h1 := (List.min?_eq_some_iff'.mp hmin).1
  obtain ⟨r, hr, hrt⟩ := List.mem_map.mp h1
  exact ⟨r, hr, hrt⟩

/-- A non-empty store has at least one distinct request at the first step,
so `high_hits` ends at least 1. -/
theorem one_le_runScan_high_hits {records : List Record} {mintime : Nat} (maxtime : Nat)
    (hmin : (records.map (fun r => r.time)).min? = some mintime) :
    1 ≤ (runScan records mintime maxtime).high_hits := by
  obtain ⟨r, hr, hrt⟩ := exists_record_at_min hmin
  have h1 : 1 ≤ cumulativeDistinctRequests records mintime :=
    one_le_cumulativeDistinct hr (le_of_eq hrt)
  have h2 : cumulativeDistinctRequests records mintime ≤
      ((scanTimes mintime maxtime).map (cumulativeDistinctRequests records)).foldl max 0 :=
    mem_le_foldl_max _ (List.mem_map_of_mem _ (mintime_mem_scanTimes mintime maxtime))
  rw [runScan_high_hits]
  omega

/-- A non-empty store always gets `hits_time` assigned (the first step beats
the initial `high_hits = 0`). -/
theorem runScan_hits_time_isSome {records : List Record} {mintime : Nat} (maxtime : Nat)
    (hmin : (records.map (fun r => r.time)).min? = some mintime) :
    ∃ ht, (runScan records mintime maxtime).hits_time = some ht := by
  have hone := one_le_runScan_high_hits maxtime hmin
  rw [runScan_high_hits] at hone
  rw [runScan_hits_time, if_neg (by omega)]
  rcases foldl_max_eq_init_or_mem
      ((scanTimes mintime maxtime).map (cumulativeDistinctRequests records)) 0 with h | h
  · omega
  · obtain ⟨t, ht, hft⟩ := List.mem_map.mp h
    have hs : ((scanTimes mintime maxtime).find? (fun u =>
        decide (cumulativeDistinctRequests records u =
          ((scanTimes mintime maxtime).map (cumulativeDistinctRequests records)).foldl
            max 0))).isSome :=
      List.find?_isSome.mpr ⟨t, ht, by simp [hft]⟩
    exact Option.isSome_iff_exists.mp hs

/-- Each loop iteration can only increase `high_bytes`. -/
theorem high_bytes_le_scan (records : List Record) (ts : List Nat) (s : ScanState) :
    s.high_bytes ≤ (ts.foldl (scanStep records) s).high_bytes := by
  induction ts generalizing s with
  | nil => exact le_refl _
  | cons t ts ih =>
    refine le_trans ?_ (ih (scanStep records s t))
    by_cases h1 : cumulativeBytes records t > s.high_bytes <;>
      by_cases h2 : cumulativeDistinctRequests records t > s.high_hits <;>
      simp [scanStep, h1, h2] <;> omega

/-! ## Claim theorems: the busiest-window scan -/

/-- C1.  Busiest-window scan semantics: for a non-empty store (`mintime` /
`maxtime` the extreme timestamps), the cursor values are exactly
`mintime + 300k ≤ maxtime`; the final `high_bytes` / `high_hits` are the
running maxima of `cumulativeBytes` / `cumulativeDistinctRequests` over the
visited steps (strict `>` updates over the initial 0); `hits_time` is the
earliest step attaining the hits maximum, and `bytes_time` the earliest
step attaining the bytes maximum whenever some step beat the initial 0;
the two trackers are independent. -/
theorem busiest_scan_semantics (records : List Record) (mintime maxtime : Nat)
    (hmin : (records.map (fun r => r.time)).min? = some mintime)
    (hmax : (records.map (fun r => r.time)).max? = some maxtime) :
    (∀ t, t ∈ scanTimes mintime maxtime ↔ ((∃ k, t = mintime + 300 * k) ∧ t ≤ maxtime)) ∧
    (runScan records mintime maxtime).high_bytes =
      ((scanTimes mintime maxtime).map (cumulativeBytes records)).foldl max 0 ∧
    (runScan records mintime maxtime).high_hits =
      ((scanTimes mintime maxtime).map (cumulativeDistinctRequests records)).foldl max 0 ∧
    (runScan records mintime maxtime).hits_time =
      (scanTimes mintime maxtime).find?
        (fun t => decide (cumulativeDistinctRequests records t =
          (runScan records mintime maxtime).high_hits)) ∧
    (0 < (runScan records mintime maxtime).high_bytes →
      (runScan records mintime maxtime).bytes_time =
        (scanTimes mintime maxtime).find?
          (fun t => decide (cumulativeBytes records t =
            (runScan records mintime maxtime).high_bytes))) := by
  refine ⟨fun t => mem_scanTimes (min_le_max_of_some hmin hmax),
    runScan_high_bytes records mintime maxtime,
    runScan_high_hits records mintime maxtime, ?_, ?_⟩
  · have hone := one_le_runScan_high_hits maxtime hmin
    rw [runScan_high_hits] at hone
    rw [runScan_hits_time, if_neg (by omega), runScan_high_hits]
  · intro hpos
    rw [runScan_high_bytes] at hpos
    rw [runScan_bytes_time, if_neg (by omega), runScan_high_bytes]

/-- Witness records for the scan theorems: two fetches 300 seconds apart. -/
def scanRecA : Record :=
  { host := "10.0.0.1", identd := some "-", user := none, time := 0,
    request := "GET /a/c/i.jpg HTTP/1.0", status := .s "200", bytes := 5,
    referer := none, user_agent := none, image_filename := "i.jpg", client_id := "c" }

/-- Second witness record, at time 300 with 7 bytes. -/
def scanRecB : Record :=
  { host := "10.0.0.2", identd := some "-", user := none, time := 300,
    request := "GET /a/c/j.jpg HTTP/1.0", status := .s "200", bytes := 7,
    referer := none, user_agent := none, image_filename := "j.jpg", client_id := "c" }

theorem busiest_scan_semantics_witness :
    (∀ t, t ∈ scanTimes 0 300 ↔ ((∃ k, t = 0 + 300 * k) ∧ t ≤ 300)) ∧
    (runScan [scanRecA, scanRecB] 0 300).high_bytes =
      ((scanTimes 0 300).map (cumulativeBytes [scanRecA, scanRecB])).foldl max 0 ∧
    (runScan [scanRecA, scanRecB] 0 300).high_hits =
      ((scanTimes 0 300).map (cumulativeDistinctRequests [scanRecA, scanRecB])).foldl max 0 ∧
    (runScan [scanRecA, scanRecB] 0 300).hits_time =
      (scanTimes 0 300).find?
        (fun t => decide (cumulativeDistinctRequests [scanRecA, scanRecB] t =
          (runScan [scanRecA, scanRecB] 0 300).high_hits)) ∧
    (0 < (runScan [scanRecA, scanRecB] 0 300).high_bytes →
      (runScan [scanRecA, scanRecB] 0 300).bytes_time =
        (scanTimes 0 300).find?
          (fun t => decide (cumulativeBytes [scanRecA, scanRecB] t =
            (runScan [scanRecA, scanRecB] 0 300).high_bytes))) :=
  busiest_scan_semantics [scanRecA, scanRecB] 0 300 (by decide) (by decide)

/-- C5 counterexample store: two one-byte fetches 100 seconds apart, so the
single scan step at `mintime = 200` misses the bytes of the record at
`maxtime = 300`. -/
def cexStore : List Record :=
  [{ host := "10.0.0.1", identd := some "-", user := none, time := 200,
     request := "GET /a/c/i.jpg HTTP/1.0", status := .s "200", bytes := 1,
     referer := none, user_agent := none, image_filename := "i.jpg", client_id := "c" },
   { host := "10.0.0.2", identd := some "-", user := none, time := 300,
     request := "GET /a/c/j.jpg HTTP/1.0", status := .s "200", bytes := 1,
     referer := none, user_agent := none, image_filename := "j.jpg", client_id := "c" }]

/-- C5 counterexample: on `cexStore` (timestamps 200 and 300, all byte
counts positive) the global maximum of `cumulativeBytes` is reached at
`t = 300 ≥ mintime`, yet the final `maxBytes` of the scan (1, sampled only
at `t = 200`) differs from `cumulativeBytes` at `maxtime` (2): the claimed
equivalence is false. -/
theorem scan_final_iff_refuted :
    (cexStore.map (fun r => r.time)).min? = some 200 ∧
    (cexStore.map (fun r => r.time)).max? = some 300 ∧
    ¬ (((runScan cexStore 200 300).high_bytes = cumulativeBytes cexStore 300) ↔
        (∃ t, 200 ≤ t ∧ ∀ u, cumulativeBytes cexStore u ≤ cumulativeBytes cexStore t)) := by
  refine ⟨by decide, by decide, fun hiff => ?_⟩
  have hglobal : ∃ t, 200 ≤ t ∧ ∀ u, cumulativeBytes cexStore u ≤ cumulativeBytes cexStore t := by
    refine ⟨300, by omega, fun u => ?_⟩
    have h1 := @cumulativeBytes_le_total cexStore (by decide) u
    have h2 : (cexStore.map (fun r => r.bytes)).sum = cumulativeBytes cexStore 300 := by decide
    omega
  have hne : (runScan cexStore 200 300).high_bytes ≠ cumulativeBytes cexStore 300 := by decide
  exact hne (hiff.mpr hglobal)

/-- C5 (amended).  For a non-empty store with non-negative byte counts:
`high_bytes` is non-decreasing as the scan progresses, and the final
`high_bytes` equals `cumulativeBytes` at the last visited step
`mintime + 300 * ((maxtime - mintime) / 300)`; this is `cumulativeBytes`
at `maxtime` exactly when `maxtime - mintime` is a multiple of 300. -/
theorem scan_monotone_and_final_step (records : List Record) (mintime maxtime : Nat)
    (hmin : (records.map (fun r => r.time)).min? = some mintime)
    (hmax : (records.map (fun r => r.time)).max? = some maxtime)
    (hnn : ∀ r ∈ records, 0 ≤ r.bytes) :
    (∀ l1 l2 l3, scanTimes mintime maxtime = l1 ++ l2 ++ l3 →
        (l1.foldl (scanStep records) initialScanState).high_bytes ≤
          ((l1 ++ l2).foldl (scanStep records) initialScanState).high_bytes) ∧
    (runScan records mintime maxtime).high_bytes =
      cumulativeBytes records (mintime + 300 * ((maxtime - mintime) / 300)) ∧
    ((maxtime - mintime) % 300 = 0 →
      (runScan records mintime maxtime).high_bytes = cumulativeBytes records maxtime) := by
  have hfinal : (runScan records mintime maxtime).high_bytes =
      cumulativeBytes records (mintime + 300 * ((maxtime - mintime) / 300)) := by
    rw [runScan_high_bytes]
    apply le_antisymm
    · apply foldl_max_le
      · apply List.sum_nonneg
        intro b hb
        obtain ⟨r, hr, rfl⟩ := List.mem_map.mp hb
        exact hnn r (List.mem_filter.mp hr).1
      · intro x hx
        obtain ⟨t, ht, rfl⟩ := List.mem_map.mp hx
        exact cumulativeBytes_mono hnn (scanTimes_le_lastStep ht)
    · exact mem_le_foldl_max _
        (List.mem_map_of_mem _ (lastStep_mem_scanTimes mintime maxtime))
  refine ⟨?_, hfinal, ?_⟩
  · intro l1 l2 l3 hsplit
    rw [List.foldl_append]
    exact high_bytes_le_scan records l2 _
  · intro hmod
    have hle : mintime ≤ maxtime := min_le_max_of_some hmin hmax
    have heq : mintime + 300 * ((maxtime - mintime) / 300) = maxtime := by omega
    rw [hfinal, heq]

theorem scan_monotone_and_final_step_witness :
    (∀ l1 l2 l3, scanTimes 0 300 = l1 ++ l2 ++ l3 →
        (l1.foldl (scanStep [scanRecA, scanRecB]) initialScanState).high_bytes ≤
          ((l1 ++ l2).foldl (scanStep [scanRecA, scanRecB]) initialScanState).high_bytes) ∧
    (runScan [scanRecA, scanRecB] 0 300).high_bytes =
      cumulativeBytes [scanRecA, scanRecB] (0 + 300 * ((300 - 0) / 300)) ∧
    ((300 - 0) % 300 = 0 →
      (runScan [scanRecA, scanRecB] 0 300).high_bytes =
        cumulativeBytes [scanRecA, scanRecB] 300) :=
  scan_monotone_and_final_step [scanRecA, scanRecB] 0 300 (by decide) (by decide) (by decide)

/-- C10.  In a non-empty store where every record carries 0 bytes, every
`cumulativeBytes` sample is 0, the strict `>` test against the initial
`high_bytes = 0` never fires, `bytes_time` is never assigned (only the
differently spelled `bytestime` was initialized), and the computation ends
in the `NameError` for `bytes_time` instead of reporting a bytes window. -/
theorem zero_bytes_unbound_bytes_time (records : List Record)
    (hne : records ≠ []) (hz : ∀ r ∈ records, r.bytes = 0) :
    findBusiestWindows records = .error (.nameError "bytes_time") := by
  have htne : records.map (fun r => r.time) ≠ [] := by
    intro h
    exact hne (List.map_eq_nil_iff.mp h)
  obtain ⟨mintime, hmin⟩ : ∃ m, (records.map (fun r => r.time)).min? = some m := by
    cases h : (records.map (fun r => r.time)).min? with
    | none => exact absurd (List.min?_eq_none_iff.mp h) htne
    | some m => exact ⟨m, rfl⟩
  obtain ⟨maxtime, hmax⟩ : ∃ m, (records.map (fun r => r.time)).max? = some m := by
    cases h : (records.map (fun r => r.time)).max? with
    | none => exact absurd (List.max?_eq_none_iff.mp h) htne
    | some m => exact ⟨m, rfl⟩
  obtain ⟨ht, hhits⟩ := runScan_hits_time_isSome maxtime hmin
  have hbytes : (runScan records mintime maxtime).bytes_time = none := by
    rw [runScan_bytes_time]
    apply if_pos
    apply foldl_max_le (le_refl 0)
    intro x hx
    obtain ⟨t, _, rfl⟩ := List.mem_map.mp hx
    exact le_of_eq (cumulativeBytes_eq_zero hz t)
  simp only [findBusiestWindows, hmin, hmax, hhits, hbytes]

/-- Witness record with a zero byte count. -/
def zeroBytesRec : Record :=
  { host := "10.0.0.1", identd := some "-", user := none, time := 0,
    request := "GET /a/c/i.jpg HTTP/1.0", status := .s "200", bytes := 0,
    referer := none, user_agent := none, image_filename := "i.jpg", client_id := "c" }

theorem zero_bytes_unbound_bytes_time_witness :
    findBusiestWindows [zeroBytesRec] = .error (.nameError "bytes_time") :=
  zero_bytes_unbound_bytes_time [zeroBytesRec] (by decide) (by decide)

/-! ## Claim theorems (aggregation and empty store) -/

/-- C3.  Aggregation conservation: for every record store and every
customer, the reported hits equal the number of store records with that
`client_id`, and summing `total_bytes` over the distinct customers recovers
the sum of `bytes` over all records of the store (each record is counted
for exactly one customer). -/
theorem aggregation_conservation (records : List Record) :
    (∀ c, hits records c = (records.filter (fun x => x.client_id == c)).length) ∧
    ((customers records).map (fun c => total_bytes records c)).sum =
      (records.map (fun r => r.bytes)).sum := by
  constructor
  · intro c
    simp [hits]
  · exact sum_total_bytes_partition records (customers records) (List.nodup_dedup _)
      (fun r hr => List.mem_dedup.mpr (List.mem_map.mpr ⟨r, hr, rfl⟩))

/-! ## Claim theorems: the fetch classifier -/

/-- Closed form of `fetch` once the status conversion succeeds: the record
comes back with `status` overwritten by its integer conversion, and the
boolean is the conjunction of the three tests. -/
theorem fetch_eq (hit : Record) {n : Int} (hp : pyIntOf hit.status = some n) :
    fetch hit = some ({ hit with status := PyStrInt.i n },
      decide (200 ≤ n) && decide (n < 300) && pyIn "GET" hit.request &&
        has_image hit.request) := by
  simp only [fetch, hp]
  by_cases hlo : n < 200
  · have h1 : (decide (n < 200) || decide (300 ≤ n)) = true := by simp [hlo]
    rw [if_pos h1]
    have h2 : decide (200 ≤ n) = false := by simp; omega
    simp [h2]
  · by_cases hhi : 300 ≤ n
    · have h1 : (decide (n < 200) || decide (300 ≤ n)) = true := by simp [hhi]
      rw [if_pos h1]
      have h2 : decide (n < 300) = false := by simp; omega
      simp [h2]
    · have h1 : ¬ ((decide (n < 200) || decide (300 ≤ n)) = true) := by simp [hlo, hhi]
      rw [if_neg h1]
      by_cases hg : pyIn "GET" hit.request
      · rw [if_neg (by simp [hg])]
        by_cases him : has_image hit.request
        · rw [if_neg (by simp [him])]
          simp [hg, him]
          constructor <;> omega
        · rw [if_pos (by simp [him])]
          simp [him]
      · rw [if_pos (by simp [hg])]
        simp [hg]

/-- C2.  Fetch classification: whenever `fetch` returns (its `int()` call
succeeded), the boolean is true iff the integer status lies in [200, 300),
`"GET"` occurs as a substring of the raw request line and one of `jpg`,
`png`, `gif` occurs as a substring of the request text; in particular
statuses 301, 404, 500 and requests not containing `GET` are never
fetches. -/
theorem fetch_classification (hit hit' : Record) (b : Bool)
    (h : fetch hit = some (hit', b)) :
    ∃ n, pyIntOf hit.status = some n ∧
      (b = true ↔ (200 ≤ n ∧ n < 300 ∧ pyIn "GET" hit.request = true ∧
        has_image hit.request = true)) ∧
      ((n = 301 ∨ n = 404 ∨ n = 500) → b = false) ∧
      (pyIn "GET" hit.request = false → b = false) := by
  cases hp : pyIntOf hit.status with
  | none => simp [fetch, hp] at h
  | some n =>
    rw [fetch_eq hit hp] at h
    simp only [Option.some.injEq, Prod.mk.injEq] at h
    obtain ⟨-, hb⟩ := h
    subst hb
    refine ⟨n, rfl, ?_, ?_, ?_⟩
    · simp only [Bool.and_eq_true, decide_eq_true_eq]
      constructor
      · rintro ⟨⟨⟨h1, h2⟩, h3⟩, h4⟩
        exact ⟨h1, h2, h3, h4⟩
      · rintro ⟨h1, h2, h3, h4⟩
        exact ⟨⟨⟨h1, h2⟩, h3⟩, h4⟩
    · intro hn
      have : decide (n < 300) = false := by simp; omega
      simp [this]
    · intro hg
      simp [hg]

theorem fetch_classification_witness :
    ∃ n, pyIntOf scanRecA.status = some n ∧
      (true = true ↔ (200 ≤ n ∧ n < 300 ∧ pyIn "GET" scanRecA.request = true ∧
        has_image scanRecA.request = true)) ∧
      ((n = 301 ∨ n = 404 ∨ n = 500) → true = false) ∧
      (pyIn "GET" scanRecA.request = false → true = false) :=
  fetch_classification scanRecA { scanRecA with status := PyStrInt.i 200 } true (by decide)

/-- C4 counterexample: `fetch` is not free of side effects — on a record
whose `status` is the parsed string `"200"` it returns the record with
`status` overwritten by the integer 200, which differs from the input
record. -/
theorem fetch_mutates_status :
    fetch scanRecA = some ({ scanRecA with status := PyStrInt.i 200 }, true) ∧
    ({ scanRecA with status := PyStrInt.i 200 } : Record) ≠ scanRecA := by
  constructor
  · decide
  · decide

/-- C4 (amended).  `fetch` is deterministic and modifies exactly one field:
it overwrites `status` with its integer conversion and leaves every other
field unchanged; calling it again on the updated record returns the same
record and the same boolean (the conversion is idempotent). -/
theorem fetch_only_status_conversion (hit : Record) (n : Int)
    (hp : pyIntOf hit.status = some n) :
    ∃ b, fetch hit = some ({ hit with status := PyStrInt.i n }, b) ∧
      fetch { hit with status := PyStrInt.i n } =
        some ({ hit with status := PyStrInt.i n }, b) := by
  refine ⟨_, fetch_eq hit hp, ?_⟩
  exact fetch_eq { hit with status := PyStrInt.i n } rfl

theorem fetch_only_status_conversion_witness :
    ∃ b, fetch scanRecA = some ({ scanRecA with status := PyStrInt.i 200 }, b) ∧
      fetch { scanRecA with status := PyStrInt.i 200 } =
        some ({ scanRecA with status := PyStrInt.i 200 }, b) :=
  fetch_only_status_conversion scanRecA 200 (by decide)

/-- C9.  Empty-dataset failure: on an empty record store the busiest-window
computation fails with the empty-dataset error (Python: `min()` of an empty
sequence raises `ValueError` before the scan is attempted), rather than
returning any result. -/
theorem empty_dataset_error :
    findBusiestWindows [] = .error .emptyDataset := rfl

/-! ## Claim theorems: the line parser -/

/-- Inversion of a successful parse: all four stages succeeded and the
record is the literal built from their outputs. -/
theorem fix_line_dict_ok_inv {d : LineDict} {r : Record} (h : fix_line_dict d = .ok r) :
    ∃ bv tv t0 ip toks s0 s1 cid segs,
      bytesField d.bytes = .ok bv ∧ timeField d.time = .ok tv ∧
      pySplitWs d.request = t0 :: ip :: toks ∧
      pySplitSlash ip = s0 :: s1 :: cid :: segs ∧
      r = { host := d.host, identd := some d.identd,
            user := if d.user = "-" then none else some d.user,
            time := tv, request := d.request, status := .s d.status, bytes := bv,
            referer := if d.referer = "-" then none else some d.referer,
            user_agent := if d.user_agent = "-" then none else some d.user_agent,
            image_filename := (s0 :: s1 :: cid :: segs).getLast (by simp),
            client_id := cid } := by
  cases hb : bytesField d.bytes with
  | error e => simp [fix_line_dict, hb] at h
  | ok bv =>
  cases ht : timeField d.time with
  | error e => simp [fix_line_dict, hb, ht] at h
  | ok tv =>
  rcases hreq : pySplitWs d.request with _ | ⟨t0, _ | ⟨ip, toks⟩⟩
  · simp [fix_line_dict, hb, ht, hreq] at h
  · simp [fix_line_dict, hb, ht, hreq] at h
  · rcases hpath : pySplitSlash ip with _ | ⟨s0, _ | ⟨s1, _ | ⟨cid, segs⟩⟩⟩
    · simp [fix_line_dict, hb, ht, hreq, hpath] at h
    · simp [fix_line_dict, hb, ht, hreq, hpath] at h
    · simp [fix_line_dict, hb, ht, hreq, hpath] at h
    · refine ⟨bv, tv, t0, ip, toks, s0, s1, cid, segs, rfl, rfl, rfl, hpath, ?_⟩
      simp only [fix_line_dict, hb, ht, hreq, hpath, Except.ok.injEq] at h
      exact h.symm

/-- Whatever integer the bytes stage produced is the `bytes` field of a
successfully parsed record. -/
theorem fix_line_dict_ok_bytes {d : LineDict} {bv : Int}
    (hb : bytesField d.bytes = .ok bv) :
    ∀ r, fix_line_dict d = .ok r → r.bytes = bv := by
  intro r h
  obtain ⟨bv2, tv, t0, ip, toks, s0, s1, cid, segs, hb2, -, -, -, rfl⟩ :=
    fix_line_dict_ok_inv h
  rw [hb] at hb2
  injection hb2 with hb2
  exact hb2.symm

/-- A sample structurally matched line: `identd` is the placeholder `-`,
`user` is a real name, `referer` is `-`, `user_agent` is the empty
string. -/
def dashIdentdLine : LineDict :=
  { host := "1.2.3.4", identd := "-", user := "frank",
    time := "01/Jan/0001:00:00:00 +0000",
    request := "GET /a/alice/img.jpg HTTP/1.0", status := "200", bytes := "123",
    referer := "-", user_agent := "" }

/-- The record `fix_line_dict` produces for `dashIdentdLine` (365 days of
year 1 = 31536000 seconds from the model's epoch). -/
def dashIdentdRec : Record :=
  { host := "1.2.3.4", identd := some "-", user := some "frank", time := 31536000,
    request := "GET /a/alice/img.jpg HTTP/1.0", status := .s "200", bytes := 123,
    referer := none, user_agent := some "", image_filename := "img.jpg",
    client_id := "alice" }

/-- C6 counterexample: on `dashIdentdLine` the parse succeeds and keeps the
literal `-` in `identd` verbatim (the normalization loop covers only
`user`, `user_agent`, `referer`), so `identd` is not mapped to absent as
the claim requires. -/
theorem identd_dash_kept :
    Except.map (fun r => r.identd) (fix_line_dict dashIdentdLine) = .ok (some "-") ∧
    some "-" ≠ (none : Option String) :=
  ⟨rfl, by decide⟩

/-- C6 (amended).  Optional-field normalization: on every successfully
parsed line, a literal `-` in `user`, `referer` or `user_agent` becomes
absent and any other value of those fields (including the empty string) is
kept verbatim; `identd` is never normalized and is kept verbatim, even
when it is `-`. -/
theorem optional_field_normalization (d : LineDict) (r : Record)
    (h : fix_line_dict d = .ok r) :
    r.identd = some d.identd ∧
    r.user = (if d.user = "-" then none else some d.user) ∧
    r.referer = (if d.referer = "-" then none else some d.referer) ∧
    r.user_agent = (if d.user_agent = "-" then none else some d.user_agent) := by
  obtain ⟨bv, tv, t0, ip, toks, s0, s1, cid, segs, -, -, -, -, rfl⟩ :=
    fix_line_dict_ok_inv h
  exact ⟨rfl, rfl, rfl, rfl⟩

theorem optional_field_normalization_witness :
    dashIdentdRec.identd = some dashIdentdLine.identd ∧
    dashIdentdRec.user =
      (if dashIdentdLine.user = "-" then none else some dashIdentdLine.user) ∧
    dashIdentdRec.referer =
      (if dashIdentdLine.referer = "-" then none else some dashIdentdLine.referer) ∧
    dashIdentdRec.user_agent =
      (if dashIdentdLine.user_agent = "-" then none else some dashIdentdLine.user_agent) :=
  optional_field_normalization dashIdentdLine dashIdentdRec rfl

/-- A line whose bytes field is the signed numeral `-5` (accepted by the
regex, whose bytes group is `\S*`, and by Python `int()`). -/
def negBytesLine : LineDict := { dashIdentdLine with bytes := "-5" }

/-- C7 counterexample: the bytes field `-5` is not `-` and is numeric for
`int()`, so the parse succeeds and the resulting record carries the
negative byte count -5 — the claim that every resulting record has a
non-negative `bytes` fails, and no `InvalidByteCountError` is raised. -/
theorem negative_bytes_accepted :
    Except.map (fun r => r.bytes) (fix_line_dict negBytesLine) = .ok (-5) ∧
    (-5 : Int) < 0 :=
  ⟨rfl, by decide⟩

/-- `int()` on a non-empty all-digit string succeeds with the (non-negative)
numeral value. -/
theorem pyInt?_of_digits {s : String} (h1 : s.toList ≠ [])
    (h2 : s.toList.all Char.isDigit) :
    pyInt? s = some ((digitsToNat s.toList : Nat) : Int) := by
  unfold pyInt?
  split
  · rename_i rest heq
    rw [heq] at h2
    simp only [List.all_cons, Bool.and_eq_true] at h2
    exact absurd h2.1 (by decide)
  · rename_i rest heq
    rw [heq] at h2
    simp only [List.all_cons, Bool.and_eq_true] at h2
    exact absurd h2.1 (by decide)
  · rw [if_pos ⟨h1, h2⟩]

/-- C7 (amended).  Byte-count conversion: `-` maps to 0; a field accepted
by `int()` (an optional sign and digits) yields exactly that integer; any
other content fails with the invalid-byte-count error; the resulting
`bytes` is non-negative whenever the field is `-` or consists of digits
only — but a signed field such as `-5` yields a negative value. -/
theorem byte_count_conversion (d : LineDict) :
    (d.bytes = "-" → ∀ r, fix_line_dict d = .ok r → r.bytes = 0) ∧
    (d.bytes ≠ "-" → pyInt? d.bytes = none →
      fix_line_dict d = .error .invalidByteCount) ∧
    (∀ n, pyInt? d.bytes = some n → ∀ r, fix_line_dict d = .ok r → r.bytes = n) ∧
    ((d.bytes.toList ≠ [] ∧ d.bytes.toList.all Char.isDigit) →
      ∀ r, fix_line_dict d = .ok r → 0 ≤ r.bytes) := by
  refine ⟨?_, ?_, ?_, ?_⟩
  · intro hdash r h
    exact fix_line_dict_ok_bytes (by simp [bytesField, hdash]) r h
  · intro hne hnone
    have hb : bytesField d.bytes = .error .invalidByteCount := by
      simp [bytesField, hne, hnone]
    simp [fix_line_dict, hb]
  · intro n hn r h
    have hne : d.bytes ≠ "-" := by
      intro hd
      rw [hd] at hn
      rw [(by decide : pyInt? "-" = none)] at hn
      exact Option.noConfusion hn
    exact fix_line_dict_ok_bytes (by simp [bytesField, hne, hn]) r h
  · intro hdig r h
    have hn := pyInt?_of_digits hdig.1 hdig.2
    have hne : d.bytes ≠ "-" := by
      intro hd
      rw [hd] at hn
      rw [(by decide : pyInt? "-" = none)] at hn
      exact Option.noConfusion hn
    have hbf : bytesField d.bytes = .ok ((digitsToNat d.bytes.toList : Nat) : Int) := by
      simp [bytesField, hne, hn]
    have := fix_line_dict_ok_bytes hbf r h
    rw [this]
    exact Int.natCast_nonneg _

/-- A structurally matched line whose request has a single token, so the
path extraction `request.split()[1]` fails. -/
def badPathLine : LineDict := { dashIdentdLine with request := "GETonly" }

theorem byte_count_conversion_witness :
    (∀ r, fix_line_dict { dashIdentdLine with bytes := "-" } = .ok r → r.bytes = 0) ∧
    fix_line_dict { dashIdentdLine with bytes := "abc" } = .error .invalidByteCount ∧
    dashIdentdRec.bytes = 123 ∧
    0 ≤ dashIdentdRec.bytes :=
  ⟨(byte_count_conversion { dashIdentdLine with bytes := "-" }).1 rfl,
   (byte_count_conversion { dashIdentdLine with bytes := "abc" }).2.1
     (by decide) (by decide),
   (byte_count_conversion dashIdentdLine).2.2.1 123 (by decide) dashIdentdRec rfl,
   (byte_count_conversion dashIdentdLine).2.2.2 (by decide) dashIdentdRec rfl⟩

/-- C8.  Request-path extraction: on every successfully parsed line the
request had at least 2 whitespace tokens and its second token at least 3
`/`-separated segments, with `image_filename` the last segment and
`client_id` the segment at index 2; and when the earlier stages succeed
but the request has fewer than 2 tokens or the path fewer than 3 segments,
the parse fails with the malformed-path error. -/
theorem request_path_extraction (d : LineDict) :
    (∀ r, fix_line_dict d = .ok r →
      2 ≤ (pySplitWs d.request).length ∧
      3 ≤ (pySplitSlash ((pySplitWs d.request).getD 1 "")).length ∧
      r.image_filename = (pySplitSlash ((pySplitWs d.request).getD 1 "")).getLast! ∧
      r.client_id = (pySplitSlash ((pySplitWs d.request).getD 1 "")).getD 2 "") ∧
    (∀ bv tv, bytesField d.bytes = .ok bv → timeField d.time = .ok tv →
      ((pySplitWs d.request).length < 2 ∨
        (pySplitSlash ((pySplitWs d.request).getD 1 "")).length < 3) →
      fix_line_dict d = .error .malformedPath) := by
  constructor
  · intro r h
    obtain ⟨bv, tv, t0, ip, toks, s0, s1, cid, segs, -, -, hreq, hpath, rfl⟩ :=
      fix_line_dict_ok_inv h
    have hget : (pySplitWs d.request).getD 1 "" = ip := by rw [hreq]; rfl
    refine ⟨by rw [hreq]; simp, by rw [hget, hpath]; simp, ?_, ?_⟩
    · rw [hget, hpath]
      exact (List.getLast!_of_getLast?
        (List.getLast?_eq_getLast (s0 :: s1 :: cid :: segs) (by simp))).symm
    · rw [hget, hpath]
      rfl
  · intro bv tv hb ht hshort
    rcases hreq : pySplitWs d.request with _ | ⟨t0, _ | ⟨ip, toks⟩⟩
    · simp [fix_line_dict, hb, ht, hreq]
    · simp [fix_line_dict, hb, ht, hreq]
    · rcases hshort with hshort | hshort
      · rw [hreq] at hshort
        simp at hshort
        omega
      · have hget : (pySplitWs d.request).getD 1 "" = ip := by rw [hreq]; rfl
        rw [hget] at hshort
        rcases hpath : pySplitSlash ip with _ | ⟨s0, _ | ⟨s1, _ | ⟨cid, segs⟩⟩⟩
        · simp [fix_line_dict, hb, ht, hreq, hpath]
        · simp [fix_line_dict, hb, ht, hreq, hpath]
        · simp [fix_line_dict, hb, ht, hreq, hpath]
        · rw [hpath] at hshort
          simp at hshort
          omega

theorem request_path_extraction_witness :
    (2 ≤ (pySplitWs dashIdentdLine.request).length ∧
      3 ≤ (pySplitSlash ((pySplitWs dashIdentdLine.request).getD 1 "")).length ∧
      dashIdentdRec.image_filename =
        (pySplitSlash ((pySplitWs dashIdentdLine.request).getD 1 "")).getLast! ∧
      dashIdentdRec.client_id =
        (pySplitSlash ((pySplitWs dashIdentdLine.request).getD 1 "")).getD 2 "") ∧
    fix_line_dict badPathLine = .error .malformedPath :=
  ⟨(request_path_extraction dashIdentdLine).1 dashIdentdRec rfl,
   (request_path_extraction badPathLine).2 123 31536000 rfl rfl
     (Or.inl (by decide))⟩

end ParseLogs
